import Mathlib

/-!
Verification development for the AMQP-CPP channel layer.

The repository's visible source is the public `Channel` surface
(`src/include/channel.h`); the engine behind it (frame codec, channel state
machine, deferred pipeline, heartbeats) is specified in `spec.md`.  Public
surface definitions below are translated from `channel.h`; engine definitions
are modelled from the spec, each marked `Modelled from the spec:` in its doc
comment.
-/

namespace AMQPCPP

/-! ## Wire primitives

Bytes are `Nat` values `< 256`.  Integers are big-endian (spec §4.1). -/

/-- Modelled from the spec: big-endian encoding of `n` into `w` bytes
(Wire Primitives, §4.1: "Integers are big-endian"). -/
def beBytes : Nat → Nat → List Nat
  | 0, _ => []
  | w + 1, n => beBytes w (n / 256) ++ [n % 256]

/-- Modelled from the spec: read a `w`-byte big-endian integer from the front
of a byte list, returning the value and the remaining bytes. -/
def readBE (w : Nat) (bs : List Nat) : Option (Nat × List Nat) :=
  if w ≤ bs.length then
    some ((bs.take w).foldl (fun a b => a * 256 + b) 0, bs.drop w)
  else none

/-! ## Body chunking for publish (spec §4.5 publish)

Bodies split into BODY frames of at most `frame-max − 8` payload bytes. -/

/-- Modelled from the spec: split a message body into consecutive chunks of at
most `c` bytes each (publish emits "zero or more BODY frames, each BODY ≤
frame-max − 8 payload bytes"). -/
def chunkBody (c : Nat) : List Nat → List (List Nat)
  | [] => []
  | l@(x :: xs) =>
    if h : c = 0 then [] else (x :: xs).take c :: chunkBody c ((x :: xs).drop c)
termination_by l => l.length
decreasing_by
  simp only [List.length_drop, List.length_cons]
  omega

/-! ## Field values and field tables (spec §3)

The wire data model: a Field Value is a tagged variant (bool, fixed-width
integers, floats, decimal, short/long string, timestamp, array, table, void);
a Field Table is an ordered sequence of (short-string key, Field Value).
Byte strings are lists of naturals `< 256`; float values are carried as their
raw 32 or 64 bit patterns since the codec only copies their bytes. -/

mutual

/-- Modelled from the spec: the Field Value tagged variant (§3).  Numeric
constructors carry the wire bit pattern as a natural below `2^width`. -/
inductive FieldValue : Type
  | vBool (b : Bool)
  | vInt8 (n : Nat)
  | vUInt8 (n : Nat)
  | vInt16 (n : Nat)
  | vUInt16 (n : Nat)
  | vInt32 (n : Nat)
  | vUInt32 (n : Nat)
  | vInt64 (n : Nat)
  | vUInt64 (n : Nat)
  | vFloat (bits : Nat)
  | vDouble (bits : Nat)
  | vDecimal (scale value : Nat)
  | vShortStr (s : List Nat)
  | vLongStr (s : List Nat)
  | vTimestamp (n : Nat)
  | vArray (items : FieldArray)
  | vTable (entries : FieldTable)
  | vVoid

/-- Modelled from the spec: an array of Field Values (§3). -/
inductive FieldArray : Type
  | nil
  | cons (v : FieldValue) (rest : FieldArray)

/-- Modelled from the spec: a Field Table, an ordered sequence of
(short-string, Field Value) pairs; keys are not deduplicated (§3). -/
inductive FieldTable : Type
  | nil
  | cons (key : List Nat) (v : FieldValue) (rest : FieldTable)

end

mutual

/-- Modelled from the spec: serialize a Field Value as its one-byte type code
followed by the value bytes (§3, §4.1); strings are length-prefixed, arrays
and tables are length-prefixed (u32) concatenations of their elements. -/
def encodeValue : FieldValue → List Nat
  | .vBool b => [116, if b then 1 else 0]
  | .vInt8 n => [98, n]
  | .vUInt8 n => [66, n]
  | .vInt16 n => 85 :: beBytes 2 n
  | .vUInt16 n => 117 :: beBytes 2 n
  | .vInt32 n => 73 :: beBytes 4 n
  | .vUInt32 n => 105 :: beBytes 4 n
  | .vInt64 n => 76 :: beBytes 8 n
  | .vUInt64 n => 108 :: beBytes 8 n
  | .vFloat bits => 102 :: beBytes 4 bits
  | .vDouble bits => 100 :: beBytes 8 bits
  | .vDecimal scale value => 68 :: scale :: beBytes 4 value
  | .vShortStr s => 115 :: s.length :: s
  | .vLongStr s => 83 :: (beBytes 4 s.length ++ s)
  | .vTimestamp n => 84 :: beBytes 8 n
  | .vArray items => 65 :: (beBytes 4 (encodeItems items).length ++ encodeItems items)
  | .vTable es => 70 :: (beBytes 4 (encodeEntries es).length ++ encodeEntries es)
  | .vVoid => [86]

/-- Modelled from the spec: concatenation of the encoded array items. -/
def encodeItems : FieldArray → List Nat
  | .nil => []
  | .cons v rest => encodeValue v ++ encodeItems rest

/-- Modelled from the spec: concatenation of the encoded table entries, each a
short-string key followed by the encoded value (§3). -/
def encodeEntries : FieldTable → List Nat
  | .nil => []
  | .cons k v rest => k.length :: (k ++ encodeValue v ++ encodeEntries rest)

end

mutual

/-- Modelled from the spec: decode one Field Value from the front of a byte
list, returning it with the remaining bytes; `fuel` bounds the recursion
depth (an artifact of the shallow embedding). -/
def decodeValue : Nat → List Nat → Option (FieldValue × List Nat)
  | 0, _ => none
  | _ + 1, [] => none
  | fuel + 1, code :: bs =>
    if code = 116 then
      match bs with
      | b :: rest => some (.vBool (decide (b ≠ 0)), rest)
      | [] => none
    else if code = 98 then
      match bs with
      | b :: rest => some (.vInt8 b, rest)
      | [] => none
    else if code = 66 then
      match bs with
      | b :: rest => some (.vUInt8 b, rest)
      | [] => none
    else if code = 85 then
      match readBE 2 bs with
      | some (n, rest) => some (.vInt16 n, rest)
      | none => none
    else if code = 117 then
      match readBE 2 bs with
      | some (n, rest) => some (.vUInt16 n, rest)
      | none => none
    else if code = 73 then
      match readBE 4 bs with
      | some (n, rest) => some (.vInt32 n, rest)
      | none => none
    else if code = 105 then
      match readBE 4 bs with
      | some (n, rest) => some (.vUInt32 n, rest)
      | none => none
    else if code = 76 then
      match readBE 8 bs with
      | some (n, rest) => some (.vInt64 n, rest)
      | none => none
    else if code = 108 then
      match readBE 8 bs with
      | some (n, rest) => some (.vUInt64 n, rest)
      | none => none
    else if code = 102 then
      match readBE 4 bs with
      | some (n, rest) => some (.vFloat n, rest)
      | none => none
    else if code = 100 then
      match readBE 8 bs with
      | some (n, rest) => some (.vDouble n, rest)
      | none => none
    else if code = 68 then
      match bs with
      | scale :: bs2 =>
        match readBE 4 bs2 with
        | some (value, rest) => some (.vDecimal scale value, rest)
        | none => none
      | [] => none
    else if code = 115 then
      match bs with
      | len :: bs2 =>
        if len ≤ bs2.length then some (.vShortStr (bs2.take len), bs2.drop len)
        else none
      | [] => none
    else if code = 83 then
      match readBE 4 bs with
      | some (len, bs2) =>
        if len ≤ bs2.length then some (.vLongStr (bs2.take len), bs2.drop len)
        else none
      | none => none
    else if code = 84 then
      match readBE 8 bs with
      | some (n, rest) => some (.vTimestamp n, rest)
      | none => none
    else if code = 65 then
      match readBE 4 bs with
      | some (len, bs2) =>
        if len ≤ bs2.length then
          match decodeItems fuel (bs2.take len) with
          | some items => some (.vArray items, bs2.drop len)
          | none => none
        else none
      | none => none
    else if code = 70 then
      match readBE 4 bs with
      | some (len, bs2) =>
        if len ≤ bs2.length then
          match decodeEntries fuel (bs2.take len) with
          | some es => some (.vTable es, bs2.drop len)
          | none => none
        else none
      | none => none
    else if code = 86 then some (.vVoid, bs)
    else none

/-- Modelled from the spec: decode a whole byte region as consecutive array
items, requiring the region to be consumed exactly. -/
def decodeItems : Nat → List Nat → Option FieldArray
  | _, [] => some .nil
  | 0, _ :: _ => none
  | fuel + 1, b :: bs =>
    match decodeValue fuel (b :: bs) with
    | some (v, rest) =>
      match decodeItems fuel rest with
      | some items => some (.cons v items)
      | none => none
    | none => none

/-- Modelled from the spec: decode a whole byte region as consecutive table
entries (short-string key then value), requiring exact consumption. -/
def decodeEntries : Nat → List Nat → Option FieldTable
  | _, [] => some .nil
  | 0, _ :: _ => none
  | fuel + 1, len :: bs =>
    if len ≤ bs.length then
      match decodeValue fuel (bs.drop len) with
      | some (v, rest) =>
        match decodeEntries fuel rest with
        | some es => some (.cons (bs.take len) v es)
        | none => none
      | none => none
    else none

end

mutual

/-- Structural size of a Field Value, used as decoding fuel. -/
def sizeV : FieldValue → Nat
  | .vArray items => 1 + sizeI items
  | .vTable es => 1 + sizeE es
  | _ => 1

/-- Structural size of a Field Array. -/
def sizeI : FieldArray → Nat
  | .nil => 0
  | .cons v rest => 1 + sizeV v + sizeI rest

/-- Structural size of a Field Table. -/
def sizeE : FieldTable → Nat
  | .nil => 0
  | .cons _ v rest => 1 + sizeV v + sizeE rest

end

mutual

/-- Modelled from the spec: wire well-formedness of a Field Value — every byte
is below 256, every numeric value fits its declared width, a short string has
at most 255 bytes, long payloads fit a u32 length prefix (§3, §4.1). -/
def wfV : FieldValue → Bool
  | .vBool _ => true
  | .vInt8 n => n < 256
  | .vUInt8 n => n < 256
  | .vInt16 n => n < 65536
  | .vUInt16 n => n < 65536
  | .vInt32 n => n < 4294967296
  | .vUInt32 n => n < 4294967296
  | .vInt64 n => n < 18446744073709551616
  | .vUInt64 n => n < 18446744073709551616
  | .vFloat bits => bits < 4294967296
  | .vDouble bits => bits < 18446744073709551616
  | .vDecimal scale value => scale < 256 && value < 4294967296
  | .vShortStr s => s.length < 256 && s.all (· < 256)
  | .vLongStr s => s.length < 4294967296 && s.all (· < 256)
  | .vTimestamp n => n < 18446744073709551616
  | .vArray items => (encodeItems items).length < 4294967296 && wfI items
  | .vTable es => (encodeEntries es).length < 4294967296 && wfE es
  | .vVoid => true

/-- Wire well-formedness of a Field Array. -/
def wfI : FieldArray → Bool
  | .nil => true
  | .cons v rest => wfV v && wfI rest

/-- Wire well-formedness of a Field Table: keys are short strings. -/
def wfE : FieldTable → Bool
  | .nil => true
  | .cons k v rest => k.length < 256 && k.all (· < 256) && wfV v && wfE rest

end

/-- Keys of a Field Table, in order. -/
def keysE : FieldTable → List (List Nat)
  | .nil => []
  | .cons k _ rest => k :: keysE rest

/-- Modelled from the spec: a Field Table serializes as a u32 length prefix
followed by the concatenated entries (§3). -/
def encodeTable (t : FieldTable) : List Nat :=
  beBytes 4 (encodeEntries t).length ++ encodeEntries t

/-- Modelled from the spec: decode a Field Table — read the u32 length prefix,
then decode exactly that many bytes as entries. -/
def decodeTable (fuel : Nat) (bs : List Nat) : Option (FieldTable × List Nat) :=
  match readBE 4 bs with
  | some (len, rest) =>
    if len ≤ rest.length then
      match decodeEntries fuel (rest.take len) with
      | some t => some (t, rest.drop len)
      | none => none
    else none
  | none => none

/-- Concrete Field Table used to witness the round-trip theorem: two entries
with distinct keys, the second holding a nested table. -/
def sampleTable : FieldTable :=
  .cons [107, 101, 121] (.vUInt16 513)
    (.cons [116, 98, 108]
      (.vTable (.cons [120] (.vShortStr [104, 105]) .nil)) .nil)

/-! ## Channel state machine (spec §4.5, §4.6)

The engine behind `Channel` is not part of the visible source; the state
machine below is modelled from the spec: a per-channel phase, the FIFO of
pending Deferreds, the consumer table, and the message-assembly sub-state. -/

/-- Modelled from the spec: per-channel protocol states (§3 Channel State). -/
inductive ChPhase
  | waitingOpenOk
  | ready
  | paused
  | inTransaction
  | closing
  | closed
  | failed
  deriving DecidableEq

/-- Modelled from the spec: the expected success shape of a pending Deferred
(§3 Deferred: plain, queue-declare, delete, consume-start, cancel). -/
inductive DKind
  | plain
  | queueDeclare
  | deleteCount
  | consumeStart
  | cancelConsume
  deriving DecidableEq

/-- Modelled from the spec: the route of a message under assembly — a
`basic.deliver`, a `basic.return`, or a `basic.get-ok` (§4.5). -/
inductive Route
  | deliver (consumerTag : String) (deliveryTag : Nat) (redelivered : Bool)
  | ret (replyCode : Nat) (replyText : String) (exchange routingKey : String)
  | getOk (deliveryTag : Nat)
  deriving DecidableEq

/-- Modelled from the spec: message-assembly sub-state — at most one message
under assembly; a HEADER is only valid right after a deliver/return/get-ok
method; BODY frames only while bytes are still needed (§3 Channel State). -/
inductive AsmState
  | idle
  | expectHeader (r : Route)
  | assembling (r : Route) (needed : Nat) (accum : List Nat)
  deriving DecidableEq

/-- Modelled from the spec: the state owned by one channel — protocol phase,
FIFO of pending Deferreds (ids with their kinds) in emission order, consumer
table, and the assembly sub-state (§3 Channel State). -/
structure ChanState where
  phase : ChPhase
  pending : List (Nat × DKind)
  consumers : List String
  asm : AsmState
  deriving DecidableEq

/-- Modelled from the spec: inbound frames a channel can receive (§4.5). -/
inductive InFrame
  | methodReply
  | queueDeclareOk (name : String) (messageCount consumerCount : Nat)
  | basicDeliver (consumerTag : String) (deliveryTag : Nat) (redelivered : Bool)
  | basicReturn (replyCode : Nat) (replyText : String) (exchange routingKey : String)
  | basicGetOk (deliveryTag : Nat)
  | header (bodySize : Nat)
  | body (payload : List Nat)
  | channelCloseFrame (replyCode : Nat) (replyText : String)
  deriving DecidableEq

/-- Modelled from the spec: events driving a channel — the user emitting a
non-nowait synchronous request (appending a Deferred), or an inbound frame. -/
inductive Event
  | emitRequest (id : Nat) (kind : DKind)
  | frame (f : InFrame)
  deriving DecidableEq

/-- Modelled from the spec: the outcome a Deferred is resolved with. -/
inductive Outcome
  | ok
  | queueOk (name : String) (messageCount consumerCount : Nat)
  | message (bytes : List Nat)
  | channelError (replyCode : Nat) (replyText : String)
  deriving DecidableEq

/-- Modelled from the spec: observable effects of a channel step — a Deferred
resolution, an emitted request frame, the emitted `channel.close-ok`, a
consumer delivery, or a returned message. -/
inductive Output
  | resolved (id : Nat) (r : Outcome)
  | requestFrame (id : Nat)
  | closeOkFrame
  | received (consumerTag : String) (msg : List Nat) (deliveryTag : Nat) (redelivered : Bool)
  | returned (replyCode : Nat) (replyText : String) (exchange routingKey : String) (msg : List Nat)
  deriving DecidableEq

/-- Modelled from the spec: the phases in which a channel accepts operations —
Ready, Paused (flow only regulates inbound), and InTransaction (§4.5). -/
def usable : ChPhase → Bool
  | .ready => true
  | .paused => true
  | .inTransaction => true
  | _ => false

/-- Modelled from the spec: dispatch of a fully assembled message — a deliver
calls the matching consumer, a return goes to the channel-wide handler, a
get-ok resolves the corresponding Deferred at the head of the FIFO (§4.5). -/
def finishMessage (s : ChanState) (r : Route) (msg : List Nat) :
    ChanState × List Output :=
  match r with
  | .deliver tag dt rd =>
    (s, if s.consumers.contains tag then [.received tag msg dt rd] else [])
  | .ret code text ex rk => (s, [.returned code text ex rk msg])
  | .getOk _ =>
    match s.pending with
    | (i, _) :: rest => ({ s with pending := rest }, [.resolved i (.message msg)])
    | [] => ({ s with phase := .failed }, [])

/-- Modelled from the spec: one step of the channel state machine (§4.5):
a non-nowait synchronous request appends a Deferred to the FIFO and emits its
frame; a valid inbound reply pops and resolves the head; deliver/return/get-ok
enter message assembly; HEADER sets the body counter; BODY frames accumulate
and dispatch at zero; a broker `channel.close` resolves all pending Deferreds
with the carried error, emits `channel.close-ok` and closes the channel;
out-of-place frames fail the channel. -/
def step (s : ChanState) (e : Event) : ChanState × List Output :=
  match e with
  | .emitRequest i k =>
    if usable s.phase then
      ({ s with pending := s.pending ++ [(i, k)] }, [.requestFrame i])
    else (s, [])
  | .frame f =>
    if s.phase = .closed ∨ s.phase = .failed then (s, [])
    else
      match f with
      | .methodReply =>
        match s.pending with
        | (i, _) :: rest => ({ s with pending := rest }, [.resolved i .ok])
        | [] => ({ s with phase := .failed }, [])
      | .queueDeclareOk name mc cc =>
        match s.pending with
        | (i, _) :: rest =>
          ({ s with pending := rest }, [.resolved i (.queueOk name mc cc)])
        | [] => ({ s with phase := .failed }, [])
      | .basicDeliver tag dt rd =>
        match s.asm with
        | .idle => ({ s with asm := .expectHeader (.deliver tag dt rd) }, [])
        | _ => ({ s with phase := .failed, asm := .idle }, [])
      | .basicReturn code text ex rk =>
        match s.asm with
        | .idle => ({ s with asm := .expectHeader (.ret code text ex rk) }, [])
        | _ => ({ s with phase := .failed, asm := .idle }, [])
      | .basicGetOk dt =>
        match s.asm with
        | .idle => ({ s with asm := .expectHeader (.getOk dt) }, [])
        | _ => ({ s with phase := .failed, asm := .idle }, [])
      | .header size =>
        match s.asm with
        | .expectHeader r =>
          if size = 0 then finishMessage { s with asm := .idle } r []
          else ({ s with asm := .assembling r size [] }, [])
        | _ => ({ s with phase := .failed, asm := .idle }, [])
      | .body payload =>
        match s.asm with
        | .assembling r needed accum =>
          if payload.length < needed then
            ({ s with asm := .assembling r (needed - payload.length) (accum ++ payload) }, [])
          else if payload.length = needed then
            finishMessage { s with asm := .idle } r (accum ++ payload)
          else ({ s with phase := .failed, asm := .idle }, [])
        | _ => ({ s with phase := .failed, asm := .idle }, [])
      | .channelCloseFrame code text =>
        ({ s with phase := .closed, pending := [], asm := .idle },
          s.pending.map (fun p => .resolved p.1 (.channelError code text)) ++ [.closeOkFrame])

/-- Run the channel machine over a list of events, accumulating outputs. -/
def exec (s : ChanState) : List Event → ChanState × List Output
  | [] => (s, [])
  | e :: es =>
    let p := step s e
    let q := exec p.1 es
    (q.1, p.2 ++ q.2)

/-- Ids of resolved Deferreds, in resolution order. -/
def resolvedIds (outs : List Output) : List Nat :=
  outs.filterMap fun o =>
    match o with
    | .resolved i _ => some i
    | _ => none

/-- Ids of emitted request frames, in emission order. -/
def requestedIds (outs : List Output) : List Nat :=
  outs.filterMap fun o =>
    match o with
    | .requestFrame i => some i
    | _ => none

/-- Consumer deliveries found in an output trace. -/
def receivedMsgs (outs : List Output) : List (String × List Nat × Nat × Bool) :=
  outs.filterMap fun o =>
    match o with
    | .received t m d r => some (t, m, d, r)
    | _ => none

/-- Ids of the pending Deferreds of a channel, in FIFO order. -/
def pendingIds (s : ChanState) : List Nat := s.pending.map Prod.fst

/-- Body frames as events. -/
def bodyEvents (bs : List (List Nat)) : List Event :=
  bs.map fun b => Event.frame (InFrame.body b)

/-! ## Publish (channel.h lines 348-350; engine part modelled from the spec) -/

/-- Envelope: message body plus basic-class properties (spec §3); only the
property table is carried here since the claims do not inspect individual
properties. -/
structure Envelope where
  body : List Nat
  properties : FieldTable

/-- Frames emitted by a publish. -/
inductive OutFrame
  | publishFrame (exchange routingKey : String)
  | headerFrame (bodySize : Nat) (properties : FieldTable)
  | bodyFrame (payload : List Nat)

/-- Modelled from the spec: `publish` is a synchronous write returning a bool
and no Deferred; it emits `basic.publish` + HEADER(body-size, properties) +
zero or more BODY frames each of at most `frame-max − 8` payload bytes, and
returns false when the channel is in no state to accept operations (§4.5
publish; the bool signature is from `channel.h` lines 348-350). -/
def publish (s : ChanState) (exchange routingKey : String) (env : Envelope)
    (frameMax : Nat) : Bool × List OutFrame :=
  if usable s.phase then
    (true,
      .publishFrame exchange routingKey ::
      .headerFrame env.body.length env.properties ::
      (chunkBody (frameMax - 8) env.body).map .bodyFrame)
  else (false, [])

/-- Lengths of the chunks of a body of the given length, computed purely
arithmetically. -/
def chunkLens (c : Nat) (n : Nat) : List Nat :=
  if c = 0 ∨ n = 0 then [] else min c n :: chunkLens c (n - c)
termination_by n
decreasing_by omega

/-! ## Heartbeats (spec §4.4) -/

/-- Modelled from the spec: connection heartbeat state — the negotiated
interval in seconds, the times of the last sent and last received frame, and
whether the connection is still alive (§4.4 heartbeat_tick). -/
structure HbState where
  heartbeat : Nat
  lastSent : Nat
  lastRecv : Nat
  alive : Bool
  deriving DecidableEq

/-- Observable heartbeat events: an emitted heartbeat frame, or the local
HeartbeatTimeout failure. -/
inductive HbEvent
  | heartbeatFrame
  | heartbeatTimeout
  deriving DecidableEq

/-- Modelled from the spec: `heartbeat_tick(now)` — with a positive negotiated
heartbeat, if no frame was sent within the interval emit one heartbeat frame;
if no frame was received within twice the interval fail with HeartbeatTimeout,
which is connection-fatal (§4.4). -/
def heartbeat_tick (s : HbState) (now : Nat) : HbState × List HbEvent :=
  if s.alive = false ∨ s.heartbeat = 0 then (s, [])
  else
    ({ s with
        lastSent := if s.lastSent + s.heartbeat ≤ now then now else s.lastSent,
        alive := if s.lastRecv + 2 * s.heartbeat ≤ now then false else s.alive },
      (if s.lastSent + s.heartbeat ≤ now then [.heartbeatFrame] else []) ++
      (if s.lastRecv + 2 * s.heartbeat ≤ now then [.heartbeatTimeout] else []))

/-- Run a sequence of ticks, accumulating events. -/
def runTicks (s : HbState) : List Nat → HbState × List HbEvent
  | [] => (s, [])
  | t :: ts =>
    let p := heartbeat_tick s t
    let q := runTicks p.1 ts
    (q.1, p.2 ++ q.2)

/-! ## Callback slots (spec §9 design note; channel.h lines 45-63) -/

/-- Modelled from the spec and `channel.h`: the named callback slots — the
channel-level ready/error/returned slots, the per-Deferred success, error and
finalize slots, and the per-consumer received/cancelled slots. -/
inductive SlotName
  | ready
  | errorSlot
  | returned
  | defSuccess (id : Nat)
  | defError (id : Nat)
  | defFinalize (id : Nat)
  | consReceived (tag : String)
  | consCancelled (tag : String)
  deriving DecidableEq

/-- All slots start empty. -/
def emptySlots : SlotName → List Nat := fun _ => []

/-- Slot operations: registering a callback on a slot.  Callables are
identified by numbers. -/
inductive CbOp
  | register (slot : SlotName) (cb : Nat)

/-- Translated from `channel.h` (onReady/onError store by plain assignment,
lines 45-63) and the spec's callback-storage note: registering a callback on
a slot makes that slot hold exactly the new callable. -/
def applyOp (st : SlotName → List Nat) : CbOp → SlotName → List Nat
  | .register slot cb => fun s => if s = slot then [cb] else st s

/-- Apply a sequence of slot operations. -/
def applyOps (st : SlotName → List Nat) : List CbOp → SlotName → List Nat
  | [] => st
  | op :: ops => applyOps (applyOp st op) ops

/-! ## Public API overloads (channel.h)

Each overload family of `Channel` forwards to one implementation entry point;
the implementation itself is opaque here and modelled as a record of
functions.  Deferred handles are represented by opaque numbers. -/

/-- Exchange types; `channel.h` uses `fanout` as the default. -/
inductive ExchangeType
  | fanout
  | direct
  | topic
  | headers
  deriving DecidableEq

/-- The opaque channel implementation the public surface forwards to
(`_implementation` in channel.h). -/
structure ChannelImpl where
  declareExchange : String → ExchangeType → Int → FieldTable → Nat
  declareQueue : String → Int → FieldTable → Nat
  consume : String → String → Int → FieldTable → Nat
  bindExchange : String → String → String → Int → FieldTable → Nat
  unbindExchange : String → String → String → Int → FieldTable → Nat
  bindQueue : String → String → String → Int → FieldTable → Nat
  unbindQueue : String → String → String → FieldTable → Nat
  publish : String → String → Envelope → Bool

/-- Translated from channel.h line 152: full-arity declareExchange. -/
def declareExchange4 (ch : ChannelImpl) (name : String) (type : ExchangeType)
    (flags : Int) (arguments : FieldTable) : Nat :=
  ch.declareExchange name type flags arguments

/-- Translated from channel.h line 153: name, type, arguments. -/
def declareExchange3 (ch : ChannelImpl) (name : String) (type : ExchangeType)
    (arguments : FieldTable) : Nat :=
  ch.declareExchange name type 0 arguments

/-- Translated from channel.h line 154: name, type, flags (arguments omitted). -/
def declareExchange2 (ch : ChannelImpl) (name : String) (type : ExchangeType)
    (flags : Int) : Nat :=
  ch.declareExchange name type flags .nil

/-- Translated from channel.h line 155: type, flags, arguments (name omitted). -/
def declareExchangeT3 (ch : ChannelImpl) (type : ExchangeType) (flags : Int)
    (arguments : FieldTable) : Nat :=
  ch.declareExchange "" type flags arguments

/-- Translated from channel.h line 156: type, arguments. -/
def declareExchangeT2 (ch : ChannelImpl) (type : ExchangeType)
    (arguments : FieldTable) : Nat :=
  ch.declareExchange "" type 0 arguments

/-- Translated from channel.h line 157: type, flags. -/
def declareExchangeT1 (ch : ChannelImpl) (type : ExchangeType) (flags : Int) : Nat :=
  ch.declareExchange "" type flags .nil

/-- Translated from channel.h line 243: full-arity declareQueue. -/
def declareQueue3 (ch : ChannelImpl) (name : String) (flags : Int)
    (arguments : FieldTable) : Nat :=
  ch.declareQueue name flags arguments

/-- Translated from channel.h line 244: name, arguments. -/
def declareQueue2a (ch : ChannelImpl) (name : String) (arguments : FieldTable) : Nat :=
  ch.declareQueue name 0 arguments

/-- Translated from channel.h line 245: name, flags. -/
def declareQueue2b (ch : ChannelImpl) (name : String) (flags : Int) : Nat :=
  ch.declareQueue name flags .nil

/-- Translated from channel.h line 246: flags, arguments (name omitted). -/
def declareQueueF2 (ch : ChannelImpl) (flags : Int) (arguments : FieldTable) : Nat :=
  ch.declareQueue "" flags arguments

/-- Translated from channel.h line 247: arguments only. -/
def declareQueueA1 (ch : ChannelImpl) (arguments : FieldTable) : Nat :=
  ch.declareQueue "" 0 arguments

/-- Translated from channel.h line 248: flags only. -/
def declareQueueF1 (ch : ChannelImpl) (flags : Int) : Nat :=
  ch.declareQueue "" flags .nil

/-- Translated from channel.h line 407: full-arity consume. -/
def consume4 (ch : ChannelImpl) (queue tag : String) (flags : Int)
    (arguments : FieldTable) : Nat :=
  ch.consume queue tag flags arguments

/-- Translated from channel.h line 408: queue, tag, flags. -/
def consume3a (ch : ChannelImpl) (queue tag : String) (flags : Int) : Nat :=
  ch.consume queue tag flags .nil

/-- Translated from channel.h line 409: queue, tag, arguments. -/
def consume3b (ch : ChannelImpl) (queue tag : String) (arguments : FieldTable) : Nat :=
  ch.consume queue tag 0 arguments

/-- Translated from channel.h line 410: queue, flags, arguments (tag omitted). -/
def consumeF2 (ch : ChannelImpl) (queue : String) (flags : Int)
    (arguments : FieldTable) : Nat :=
  ch.consume queue "" flags arguments

/-- Translated from channel.h line 411: queue, flags. -/
def consumeF1 (ch : ChannelImpl) (queue : String) (flags : Int) : Nat :=
  ch.consume queue "" flags .nil

/-- Translated from channel.h line 412: queue, arguments. -/
def consumeA1 (ch : ChannelImpl) (queue : String) (arguments : FieldTable) : Nat :=
  ch.consume queue "" 0 arguments

/-- Translated from channel.h line 190: full-arity bindExchange. -/
def bindExchange5 (ch : ChannelImpl) (source target routingkey : String)
    (flags : Int) (arguments : FieldTable) : Nat :=
  ch.bindExchange source target routingkey flags arguments

/-- Translated from channel.h line 191: arguments without flags. -/
def bindExchange4 (ch : ChannelImpl) (source target routingkey : String)
    (arguments : FieldTable) : Nat :=
  ch.bindExchange source target routingkey 0 arguments

/-- Translated from channel.h line 192: flags without arguments. -/
def bindExchange3 (ch : ChannelImpl) (source target routingkey : String)
    (flags : Int) : Nat :=
  ch.bindExchange source target routingkey flags .nil

/-- Translated from channel.h line 210: full-arity unbindExchange. -/
def unbindExchange5 (ch : ChannelImpl) (target source routingkey : String)
    (flags : Int) (arguments : FieldTable) : Nat :=
  ch.unbindExchange target source routingkey flags arguments

/-- Translated from channel.h line 211: arguments without flags. -/
def unbindExchange4 (ch : ChannelImpl) (target source routingkey : String)
    (arguments : FieldTable) : Nat :=
  ch.unbindExchange target source routingkey 0 arguments

/-- Translated from channel.h line 212: flags without arguments. -/
def unbindExchange3 (ch : ChannelImpl) (target source routingkey : String)
    (flags : Int) : Nat :=
  ch.unbindExchange target source routingkey flags .nil

/-- Translated from channel.h line 266: full-arity bindQueue. -/
def bindQueue5 (ch : ChannelImpl) (exchange queue routingkey : String)
    (flags : Int) (arguments : FieldTable) : Nat :=
  ch.bindQueue exchange queue routingkey flags arguments

/-- Translated from channel.h line 267: arguments without flags. -/
def bindQueue4 (ch : ChannelImpl) (exchange queue routingkey : String)
    (arguments : FieldTable) : Nat :=
  ch.bindQueue exchange queue routingkey 0 arguments

/-- Translated from channel.h line 268: flags without arguments. -/
def bindQueue3 (ch : ChannelImpl) (exchange queue routingkey : String)
    (flags : Int) : Nat :=
  ch.bindQueue exchange queue routingkey flags .nil

/-- Translated from channel.h line 280: unbindQueue with arguments. -/
def unbindQueue4 (ch : ChannelImpl) (exchange queue routingkey : String)
    (arguments : FieldTable) : Nat :=
  ch.unbindQueue exchange queue routingkey arguments

/-- Translated from channel.h line 281: unbindQueue without arguments. -/
def unbindQueue3 (ch : ChannelImpl) (exchange queue routingkey : String) : Nat :=
  ch.unbindQueue exchange queue routingkey .nil

/-- Translated from channel.h line 348: publish taking a full Envelope. -/
def publishEnv (ch : ChannelImpl) (exchange routingKey : String)
    (env : Envelope) : Bool :=
  ch.publish exchange routingKey env

/-- Translated from channel.h line 349: publish taking a message string;
`Envelope(message)` wraps just those body bytes with no properties. -/
def publishStr (ch : ChannelImpl) (exchange routingKey : String)
    (message : List Nat) : Bool :=
  ch.publish exchange routingKey { body := message, properties := .nil }

/-- Translated from channel.h line 350: publish taking a raw byte buffer and
its size; the pair denotes the byte sequence `message` of that length, and
`Envelope(message, size)` wraps just those body bytes. -/
def publishRaw (ch : ChannelImpl) (exchange routingKey : String)
    (message : List Nat) : Bool :=
  ch.publish exchange routingKey { body := message, properties := .nil }

/-! ## Theorems -/

theorem beBytes_length (w n : Nat) : (beBytes w n).length = w := by
  induction w generalizing n with
  | zero => rfl
  | succ w ih => simp [beBytes, ih]

theorem beBytes_lt (w n : Nat) : ∀ b ∈ beBytes w n, b < 256 := by
  induction w generalizing n with
  | zero => intro b hb; simp [beBytes] at hb
  | succ w ih =>
    intro b hb
    simp only [beBytes, List.mem_append, List.mem_singleton] at hb
    rcases hb with hb | hb
    · exact ih _ _ hb
    · subst hb; exact Nat.mod_lt _ (by norm_num)

theorem foldl_beBytes (w n a : Nat) (h : n < 256 ^ w) :
    (beBytes w n).foldl (fun a b => a * 256 + b) a = a * 256 ^ w + n := by
  induction w generalizing n a with
  | zero =>
    have hn : n = 0 := by simpa using h
    subst hn
    simp [beBytes]
  | succ w ih =>
    simp only [beBytes, List.foldl_append, List.foldl_cons, List.foldl_nil]
    have hdiv : n / 256 < 256 ^ w := by
      rw [Nat.div_lt_iff_lt_mul (by norm_num)]
      calc n < 256 ^ (w + 1) := h
        _ = 256 ^ w * 256 := by ring
    rw [ih _ _ hdiv]
    have := Nat.div_add_mod n 256
    calc (a * 256 ^ w + n / 256) * 256 + n % 256
        = a * (256 ^ w * 256) + (256 * (n / 256) + n % 256) := by ring
      _ = a * 256 ^ (w + 1) + n := by rw [this]; ring

theorem readBE_beBytes (w n : Nat) (rest : List Nat) (h : n < 256 ^ w) :
    readBE w (beBytes w n ++ rest) = some (n, rest) := by
  have hlen := beBytes_length w n
  simp only [readBE, List.length_append, hlen]
  rw [if_pos (by omega)]
  rw [List.take_append_of_le_length (by omega), List.drop_append_of_le_length (by omega)]
  rw [List.take_of_length_le (by omega), List.drop_eq_nil_of_le (by omega)]
  simp only [List.nil_append]
  rw [foldl_beBytes w n 0 h]
  simp

theorem chunkBody_nil (c : Nat) : chunkBody c [] = [] := by
  simp [chunkBody]

theorem chunkBody_cons (c : Nat) (x : Nat) (xs : List Nat) (hc : c ≠ 0) :
    chunkBody c (x :: xs) = (x :: xs).take c :: chunkBody c ((x :: xs).drop c) := by
  rw [chunkBody]
  simp [hc]

theorem chunkBody_join_fuel (c : Nat) (hc : 0 < c) :
    ∀ (n : Nat) (l : List Nat), l.length ≤ n → (chunkBody c l).flatten = l := by
  intro n
  induction n with
  | zero =>
    intro l hl
    have : l = [] := List.length_eq_zero.mp (by omega)
    subst this
    simp [chunkBody_nil]
  | succ n ih =>
    intro l hl
    match l with
    | [] => simp [chunkBody_nil]
    | x :: xs =>
      rw [chunkBody_cons c x xs (by omega)]
      simp only [List.flatten_cons]
      have hdrop : ((x :: xs).drop c).length ≤ n := by
        simp only [List.length_drop, List.length_cons] at *
        omega
      rw [ih _ hdrop]
      exact List.take_append_drop c (x :: xs)

/-- Concatenating the chunks gives back the original body. -/
theorem chunkBody_join (c : Nat) (hc : 0 < c) (l : List Nat) :
    (chunkBody c l).flatten = l :=
  chunkBody_join_fuel c hc l.length l le_rfl

theorem chunkBody_le_fuel (c : Nat) :
    ∀ (n : Nat) (l : List Nat), l.length ≤ n → ∀ ch ∈ chunkBody c l, ch.length ≤ c := by
  intro n
  induction n with
  | zero =>
    intro l hl ch hch
    have : l = [] := List.length_eq_zero.mp (by omega)
    subst this
    simp [chunkBody_nil] at hch
  | succ n ih =>
    intro l hl ch hch
    match l with
    | [] => simp [chunkBody_nil] at hch
    | x :: xs =>
      by_cases hc : c = 0
      · rw [chunkBody, dif_pos hc] at hch
        simp at hch
      · rw [chunkBody_cons c x xs hc] at hch
        rcases List.mem_cons.mp hch with h | h
        · subst h
          simp only [List.length_take]
          omega
        · have hdrop : ((x :: xs).drop c).length ≤ n := by
            simp only [List.length_drop, List.length_cons] at *
            omega
          exact ih _ hdrop ch h

/-- Every chunk has at most `c` bytes. -/
theorem chunkBody_le (c : Nat) (l : List Nat) :
    ∀ ch ∈ chunkBody c l, ch.length ≤ c :=
  chunkBody_le_fuel c l.length l le_rfl

theorem ceil_div_step (m c : Nat) (hc : 0 < c) (hm : 0 < m) :
    (m - c + c - 1) / c + 1 = (m + c - 1) / c := by
  have h1 : m + c - 1 = (m - 1) + c := by omega
  rw [h1, Nat.add_div_right _ hc]
  rcases le_or_lt m c with h | h
  · have h2 : m - c = 0 := by omega
    rw [h2, Nat.zero_add, Nat.div_eq_of_lt (show c - 1 < c by omega),
      Nat.div_eq_of_lt (show m - 1 < c by omega)]
  · have h4 : m - c + c - 1 = m - 1 := by omega
    rw [h4]

theorem chunkBody_count_fuel (c : Nat) (hc : 0 < c) :
    ∀ (n : Nat) (l : List Nat), l.length ≤ n →
      (chunkBody c l).length = (l.length + c - 1) / c := by
  intro n
  induction n with
  | zero =>
    intro l hl
    have : l = [] := List.length_eq_zero.mp (by omega)
    subst this
    simp only [chunkBody_nil, List.length_nil]
    rw [Nat.div_eq_of_lt (by omega)]
  | succ n ih =>
    intro l hl
    match l with
    | [] =>
      simp only [chunkBody_nil, List.length_nil]
      rw [Nat.div_eq_of_lt (by omega)]
    | x :: xs =>
      rw [chunkBody_cons c x xs (by omega)]
      have hdrop : ((x :: xs).drop c).length ≤ n := by
        simp only [List.length_drop, List.length_cons] at *
        omega
      simp only [List.length_cons]
      rw [ih _ hdrop]
      simp only [List.length_drop, List.length_cons]
      exact ceil_div_step (xs.length + 1) c hc (by omega)

/-- The number of chunks is the ceiling of `length / c`. -/
theorem chunkBody_count (c : Nat) (hc : 0 < c) (l : List Nat) :
    (chunkBody c l).length = (l.length + c - 1) / c :=
  chunkBody_count_fuel c hc l.length l le_rfl

theorem take_app (s t : List Nat) : (s ++ t).take s.length = s := by
  rw [List.take_append_of_le_length le_rfl, List.take_of_length_le le_rfl]

theorem drop_app (s t : List Nat) : (s ++ t).drop s.length = t := by
  rw [List.drop_append_of_le_length le_rfl, List.drop_eq_nil_of_le le_rfl]
  simp


theorem encodeValue_cons (v : FieldValue) : ∃ c cs, encodeValue v = c :: cs := by
  cases v <;> exact ⟨_, _, rfl⟩

theorem decodeItems_nil (fuel : Nat) : decodeItems fuel [] = some .nil := by
  cases fuel <;> rfl

theorem decodeEntries_nil (fuel : Nat) : decodeEntries fuel [] = some .nil := by
  cases fuel <;> rfl

theorem decodeItems_cons (f b : Nat) (bs : List Nat) :
    decodeItems (f + 1) (b :: bs) =
      (match decodeValue f (b :: bs) with
      | some (v, rest) =>
        (match decodeItems f rest with
        | some items => some (.cons v items)
        | none => none)
      | none => none) := rfl

theorem decodeEntries_cons (f len : Nat) (bs : List Nat) :
    decodeEntries (f + 1) (len :: bs) =
      (if len ≤ bs.length then
        match decodeValue f (bs.drop len) with
        | some (v, rest) =>
          (match decodeEntries f rest with
          | some es => some (.cons (bs.take len) v es)
          | none => none)
        | none => none
      else none) := rfl

theorem decode_encode_aux (fuel : Nat) :
    (∀ v rest, wfV v = true → sizeV v ≤ fuel →
      decodeValue fuel (encodeValue v ++ rest) = some (v, rest)) ∧
    (∀ items, wfI items = true → sizeI items ≤ fuel →
      decodeItems fuel (encodeItems items) = some items) ∧
    (∀ es, wfE es = true → sizeE es ≤ fuel →
      decodeEntries fuel (encodeEntries es) = some es) := by
  induction fuel with
  | zero =>
    refine ⟨?_, ?_, ?_⟩
    · intro v rest hwf hsize
      exfalso
      cases v <;> simp [sizeV] at hsize
    · intro items hwf hsize
      cases items with
      | nil => simp [encodeItems, decodeItems_nil]
      | cons v rest => simp [sizeI] at hsize
    · intro es hwf hsize
      cases es with
      | nil => simp [encodeEntries, decodeEntries_nil]
      | cons k v rest => simp [sizeE] at hsize
  | succ f ih =>
    obtain ⟨ihV, ihI, ihE⟩ := ih
    refine ⟨?_, ?_, ?_⟩
    · intro v rest hwf hsize
      cases v with
      | vBool b => cases b <;> simp [encodeValue, decodeValue]
      | vInt8 n => simp [encodeValue, decodeValue]
      | vUInt8 n => simp [encodeValue, decodeValue]
      | vInt16 n =>
        simp only [wfV, decide_eq_true_eq] at hwf
        have h2 : n < 256 ^ 2 := by simpa using hwf
        simp [encodeValue, decodeValue, readBE_beBytes 2 n rest h2]
      | vUInt16 n =>
        simp only [wfV, decide_eq_true_eq] at hwf
        have h2 : n < 256 ^ 2 := by simpa using hwf
        simp [encodeValue, decodeValue, readBE_beBytes 2 n rest h2]
      | vInt32 n =>
        simp only [wfV, decide_eq_true_eq] at hwf
        have h2 : n < 256 ^ 4 := by simpa using hwf
        simp [encodeValue, decodeValue, readBE_beBytes 4 n rest h2]
      | vUInt32 n =>
        simp only [wfV, decide_eq_true_eq] at hwf
        have h2 : n < 256 ^ 4 := by simpa using hwf
        simp [encodeValue, decodeValue, readBE_beBytes 4 n rest h2]
      | vInt64 n =>
        simp only [wfV, decide_eq_true_eq] at hwf
        have h2 : n < 256 ^ 8 := by simpa using hwf
        simp [encodeValue, decodeValue, readBE_beBytes 8 n rest h2]
      | vUInt64 n =>
        simp only [wfV, decide_eq_true_eq] at hwf
        have h2 : n < 256 ^ 8 := by simpa using hwf
        simp [encodeValue, decodeValue, readBE_beBytes 8 n rest h2]
      | vFloat bits =>
        simp only [wfV, decide_eq_true_eq] at hwf
        have h2 : bits < 256 ^ 4 := by simpa using hwf
        simp [encodeValue, decodeValue, readBE_beBytes 4 bits rest h2]
      | vDouble bits =>
        simp only [wfV, decide_eq_true_eq] at hwf
        have h2 : bits < 256 ^ 8 := by simpa using hwf
        simp [encodeValue, decodeValue, readBE_beBytes 8 bits rest h2]
      | vDecimal scale value =>
        simp only [wfV, Bool.and_eq_true, decide_eq_true_eq] at hwf
        have h2 : value < 256 ^ 4 := by simpa using hwf.2
        simp [encodeValue, decodeValue, readBE_beBytes 4 value rest h2]
      | vShortStr s =>
        simp only [encodeValue, List.cons_append]
        simp [decodeValue, take_app, drop_app, Nat.le_add_right]
      | vLongStr s =>
        simp only [wfV, Bool.and_eq_true, decide_eq_true_eq] at hwf
        have h2 : s.length < 256 ^ 4 := by simpa using hwf.1
        simp only [encodeValue, List.cons_append, List.append_assoc]
        simp [decodeValue, readBE_beBytes 4 s.length (s ++ rest) h2, take_app, drop_app]
      | vTimestamp n =>
        simp only [wfV, decide_eq_true_eq] at hwf
        have h2 : n < 256 ^ 8 := by simpa using hwf
        simp [encodeValue, decodeValue, readBE_beBytes 8 n rest h2]
      | vArray items =>
        simp only [wfV, Bool.and_eq_true, decide_eq_true_eq] at hwf
        simp only [sizeV] at hsize
        have h2 : (encodeItems items).length < 256 ^ 4 := by simpa using hwf.1
        have hdi := ihI items hwf.2 (by omega)
        simp only [encodeValue, List.cons_append, List.append_assoc]
        simp [decodeValue,
          readBE_beBytes 4 (encodeItems items).length (encodeItems items ++ rest) h2,
          take_app, drop_app, hdi]
      | vTable es =>
        simp only [wfV, Bool.and_eq_true, decide_eq_true_eq] at hwf
        simp only [sizeV] at hsize
        have h2 : (encodeEntries es).length < 256 ^ 4 := by simpa using hwf.1
        have hde := ihE es hwf.2 (by omega)
        simp only [encodeValue, List.cons_append, List.append_assoc]
        simp [decodeValue,
          readBE_beBytes 4 (encodeEntries es).length (encodeEntries es ++ rest) h2,
          take_app, drop_app, hde]
      | vVoid => simp [encodeValue, decodeValue]
    · intro items hwf hsize
      cases items with
      | nil => simp [encodeItems, decodeItems_nil]
      | cons v rest =>
        simp only [wfI, Bool.and_eq_true] at hwf
        simp only [sizeI] at hsize
        obtain ⟨c, cs, hv⟩ := encodeValue_cons v
        have hdv := ihV v (encodeItems rest) hwf.1 (by omega)
        have hdi := ihI rest hwf.2 (by omega)
        simp only [encodeItems]
        rw [hv] at hdv ⊢
        simp only [List.cons_append] at hdv ⊢
        rw [decodeItems_cons, hdv]
        simp [hdi]
    · intro es hwf hsize
      cases es with
      | nil => simp [encodeEntries, decodeEntries_nil]
      | cons k v rest =>
        simp only [wfE, Bool.and_eq_true, decide_eq_true_eq] at hwf
        simp only [sizeE] at hsize
        have hdv := ihV v (encodeEntries rest) hwf.1.2 (by omega)
        have hde := ihE rest hwf.2 (by omega)
        simp only [encodeEntries, List.append_assoc]
        rw [decodeEntries_cons]
        rw [if_pos (by simp [List.length_append])]
        rw [take_app, drop_app, hdv]
        simp [hde]

/-- C8: for every Field Table with no duplicate keys (wire-well-formed, its
encoding fitting the u32 length prefix), encoding to wire bytes and decoding
those bytes yields exactly the original table — same key order, same value
bytes — with no bytes left over. -/
theorem C8_field_table_roundtrip (t : FieldTable) (fuel : Nat)
    (hwf : wfE t = true) (hnodup : (keysE t).Nodup)
    (hlen : (encodeEntries t).length < 4294967296)
    (hfuel : sizeE t ≤ fuel) :
    decodeTable fuel (encodeTable t) = some (t, []) := by
  unfold decodeTable encodeTable
  rw [readBE_beBytes 4 _ _ (by simpa using hlen)]
  simp only [le_refl, if_true, List.take_length, List.drop_length]
  rw [(decode_encode_aux fuel).2.2 t hwf hfuel]

/-- Witness for C8: the round trip evaluated at a concrete two-entry table
holding a nested table. -/
theorem C8_field_table_roundtrip_witness :
    wfE sampleTable = true ∧ (keysE sampleTable).Nodup ∧
    (encodeEntries sampleTable).length < 4294967296 ∧ sizeE sampleTable ≤ 6 ∧
    decodeTable 6 (encodeTable sampleTable) = some (sampleTable, []) :=
  ⟨by decide, by decide, by decide, by decide,
    C8_field_table_roundtrip sampleTable 6 (by decide) (by decide) (by decide) (by decide)⟩

theorem resolvedIds_append (a b : List Output) :
    resolvedIds (a ++ b) = resolvedIds a ++ resolvedIds b := by
  simp [resolvedIds]

theorem requestedIds_append (a b : List Output) :
    requestedIds (a ++ b) = requestedIds a ++ requestedIds b := by
  simp [requestedIds]

theorem resolvedIds_map_close (l : List (Nat × DKind)) (code : Nat) (text : String) :
    resolvedIds (l.map fun p => Output.resolved p.1 (.channelError code text))
      = l.map Prod.fst := by
  induction l with
  | nil => simp [resolvedIds]
  | cons p rest ih =>
    simp [resolvedIds] at ih ⊢
    try exact ih

theorem requestedIds_map_close (l : List (Nat × DKind)) (code : Nat) (text : String) :
    requestedIds (l.map fun p => Output.resolved p.1 (.channelError code text)) = [] := by
  induction l with
  | nil => simp [requestedIds]
  | cons p rest ih =>
    simp [requestedIds] at ih ⊢
    try exact ih

theorem finishMessage_invariant (s : ChanState) (r : Route) (msg : List Nat) :
    resolvedIds (finishMessage s r msg).2 ++ pendingIds (finishMessage s r msg).1
      = pendingIds s ++ requestedIds (finishMessage s r msg).2 := by
  cases r with
  | deliver tag dt rd =>
    by_cases h : tag ∈ s.consumers <;>
      simp [finishMessage, h, resolvedIds, requestedIds, pendingIds]
  | ret code text ex rk => simp [finishMessage, resolvedIds, requestedIds, pendingIds]
  | getOk dt =>
    cases hp : s.pending with
    | nil => simp [finishMessage, hp, resolvedIds, requestedIds, pendingIds]
    | cons p rest =>
      simp [finishMessage, hp, resolvedIds, requestedIds, pendingIds]

theorem step_invariant (s : ChanState) (e : Event) :
    resolvedIds (step s e).2 ++ pendingIds (step s e).1
      = pendingIds s ++ requestedIds (step s e).2 := by
  cases e with
  | emitRequest i k =>
    by_cases h : usable s.phase <;>
      simp [step, h, resolvedIds, requestedIds, pendingIds]
  | frame f =>
    by_cases hc : s.phase = .closed ∨ s.phase = .failed
    · simp [step, hc, resolvedIds, requestedIds, pendingIds]
    · cases f with
      | methodReply =>
        cases hp : s.pending with
        | nil => simp [step, hc, hp, resolvedIds, requestedIds, pendingIds]
        | cons p rest =>
          simp [step, hc, hp, resolvedIds, requestedIds, pendingIds]
      | queueDeclareOk name mc cc =>
        cases hp : s.pending with
        | nil => simp [step, hc, hp, resolvedIds, requestedIds, pendingIds]
        | cons p rest =>
          simp [step, hc, hp, resolvedIds, requestedIds, pendingIds]
      | basicDeliver tag dt rd =>
        cases ha : s.asm <;>
          simp [step, hc, ha, resolvedIds, requestedIds, pendingIds]
      | basicReturn code text ex rk =>
        cases ha : s.asm <;>
          simp [step, hc, ha, resolvedIds, requestedIds, pendingIds]
      | basicGetOk dt =>
        cases ha : s.asm <;>
          simp [step, hc, ha, resolvedIds, requestedIds, pendingIds]
      | header size =>
        cases ha : s.asm with
        | idle => simp [step, hc, ha, resolvedIds, requestedIds, pendingIds]
        | expectHeader r =>
          by_cases hz : size = 0
          · have := finishMessage_invariant { s with asm := .idle } r []
            simp [step, hc, ha, hz, pendingIds] at this ⊢
            exact this
          · simp [step, hc, ha, hz, resolvedIds, requestedIds, pendingIds]
        | assembling r needed accum =>
          simp [step, hc, ha, resolvedIds, requestedIds, pendingIds]
      | body payload =>
        cases ha : s.asm with
        | idle => simp [step, hc, ha, resolvedIds, requestedIds, pendingIds]
        | expectHeader r => simp [step, hc, ha, resolvedIds, requestedIds, pendingIds]
        | assembling r needed accum =>
          by_cases h1 : payload.length < needed
          · simp [step, hc, ha, h1, resolvedIds, requestedIds, pendingIds]
          · by_cases h2 : payload.length = needed
            · have := finishMessage_invariant { s with asm := .idle } r (accum ++ payload)
              simp [step, hc, ha, h1, h2, pendingIds] at this ⊢
              exact this
            · simp [step, hc, ha, h1, h2, resolvedIds, requestedIds, pendingIds]
      | channelCloseFrame code text =>
        have hstep : step s (.frame (.channelCloseFrame code text))
            = ({ s with phase := .closed, pending := [], asm := .idle },
               s.pending.map (fun p => Output.resolved p.1 (.channelError code text))
                 ++ [Output.closeOkFrame]) := by
          simp [step, hc]
        rw [hstep]
        simp only [resolvedIds_append, requestedIds_append,
          resolvedIds_map_close, requestedIds_map_close, pendingIds]
        simp [resolvedIds, requestedIds]

/-- C1: over every interleaving of emitted synchronous requests and inbound
frames, the ids of resolved Deferreds followed by the ids still pending equal
the ids pending at the start followed by the ids of the emitted request
frames, in order — every valid reply pops and resolves the head, so responses
resolve Deferreds in exactly the FIFO order requests were emitted. -/
theorem C1_fifo_correlation (s : ChanState) (es : List Event) :
    resolvedIds (exec s es).2 ++ pendingIds (exec s es).1
      = pendingIds s ++ requestedIds (exec s es).2 := by
  induction es generalizing s with
  | nil => simp [exec, resolvedIds, requestedIds]
  | cons e es ih =>
    simp only [exec, resolvedIds_append, requestedIds_append]
    have hstep := step_invariant s e
    have htail := ih (step s e).1
    rw [List.append_assoc, htail, ← List.append_assoc, hstep, List.append_assoc]

theorem usable_not_closed (s : ChanState) (h : usable s.phase = true) :
    ¬(s.phase = .closed ∨ s.phase = .failed) := by
  cases hph : s.phase <;> simp_all [usable]

theorem flatten_eq_nil_of_sum_zero (bs : List (List Nat))
    (h : (bs.map List.length).sum = 0) : bs.flatten = [] := by
  induction bs with
  | nil => rfl
  | cons b rest ih =>
    simp only [List.map_cons, List.sum_cons] at h
    have hb : b.length = 0 := by omega
    have hr : (rest.map List.length).sum = 0 := by omega
    have : b = [] := List.length_eq_zero.mp hb
    simp [this, List.flatten_cons, ih hr]

theorem bodies_after_idle (bs : List (List Nat)) :
    ∀ (s : ChanState), s.asm = .idle → (exec s (bodyEvents bs)).2 = [] := by
  induction bs with
  | nil => intro s h; simp [bodyEvents, exec]
  | cons b rest ih =>
    intro s h
    by_cases hc : s.phase = .closed ∨ s.phase = .failed
    · have hstep : step s (.frame (.body b)) = (s, []) := by simp [step, hc]
      simp only [bodyEvents, List.map_cons, exec, hstep, List.nil_append]
      have h2 := ih s h
      simpa [bodyEvents] using h2
    · have hstep : step s (.frame (.body b)) = ({ s with phase := .failed, asm := .idle }, []) := by
        simp [step, hc, h]
      simp only [bodyEvents, List.map_cons, exec, hstep, List.nil_append]
      have h2 := ih { s with phase := .failed, asm := .idle } rfl
      simpa [bodyEvents] using h2

theorem exec_assembling (tag : String) (dt : Nat) (rd : Bool) (bs : List (List Nat)) :
    ∀ (s : ChanState) (needed : Nat) (accum : List Nat),
      s.asm = .assembling (.deliver tag dt rd) needed accum →
      usable s.phase = true →
      (bs.map List.length).sum = needed →
      0 < needed →
      tag ∈ s.consumers →
      (exec s (bodyEvents bs)).2 = [.received tag (accum ++ bs.flatten) dt rd] := by
  induction bs with
  | nil =>
    intro s needed accum hasm hus hsum hpos htag
    simp only [List.map_nil, List.sum_nil] at hsum
    omega
  | cons b rest ih =>
    intro s needed accum hasm hus hsum hpos htag
    have hc := usable_not_closed s hus
    simp only [List.map_cons, List.sum_cons] at hsum
    simp only [bodyEvents, List.map_cons, exec]
    rcases Nat.lt_trichotomy b.length needed with hlt | heq | hgt
    · have hstep : step s (.frame (.body b)) = ({ s with asm := AsmState.assembling (Route.deliver tag dt rd) (needed - b.length) (accum ++ b) }, []) := by
        simp [step, hc, hasm, hlt]
      rw [hstep]
      simp only [List.nil_append]
      have hrec := ih { s with asm := AsmState.assembling (Route.deliver tag dt rd) (needed - b.length) (accum ++ b) } (needed - b.length) (accum ++ b) rfl hus (by omega) (by omega) htag
      simp only [bodyEvents] at hrec
      rw [hrec]
      simp [List.flatten_cons, List.append_assoc]
    · have hrest : (rest.map List.length).sum = 0 := by omega
      have hflat := flatten_eq_nil_of_sum_zero rest hrest
      have hstep : step s (.frame (.body b))
          = ({ s with asm := .idle }, [.received tag (accum ++ b) dt rd]) := by
        simp [step, hc, hasm, heq, finishMessage, htag, Nat.lt_irrefl]
      rw [hstep]
      have hafter := bodies_after_idle rest { s with asm := .idle } rfl
      simp only [bodyEvents] at hafter
      rw [hafter]
      simp [List.flatten_cons, hflat]
    · omega

/-- C2: after a `basic.deliver` method frame, a HEADER announcing body size
`S`, and any sequence of BODY frames whose payload lengths sum to `S`, exactly
one `on_received` dispatch to the matching consumer occurs, and the delivered
bytes are the concatenation of the BODY payloads in arrival order. -/
theorem C2_message_assembly (s : ChanState) (tag : String) (dt : Nat) (rd : Bool)
    (S : Nat) (bs : List (List Nat))
    (hus : usable s.phase = true) (hasm : s.asm = .idle)
    (htag : tag ∈ s.consumers)
    (hsum : (bs.map List.length).sum = S) :
    receivedMsgs (exec s
        (.frame (.basicDeliver tag dt rd) :: .frame (.header S) :: bodyEvents bs)).2
      = [(tag, bs.flatten, dt, rd)] := by
  have hc := usable_not_closed s hus
  have hstep1 : step s (.frame (.basicDeliver tag dt rd))
      = ({ s with asm := .expectHeader (.deliver tag dt rd) }, []) := by
    simp [step, hc, hasm]
  simp only [exec, hstep1, List.nil_append]
  by_cases hz : S = 0
  · subst hz
    have hstep2 : step { s with asm := .expectHeader (.deliver tag dt rd) }
        (.frame (.header 0))
        = ({ s with asm := .idle }, [.received tag [] dt rd]) := by
      simp [step, hc, finishMessage, htag]
    rw [hstep2]
    have hafter := bodies_after_idle bs { s with asm := .idle } rfl
    rw [hafter]
    have hflat := flatten_eq_nil_of_sum_zero bs hsum
    simp [receivedMsgs, hflat]
  · have hstep2 : step { s with asm := .expectHeader (.deliver tag dt rd) }
        (.frame (.header S))
        = ({ s with asm := .assembling (.deliver tag dt rd) S [] }, []) := by
      simp [step, hc, hz]
    rw [hstep2]
    have hrec := exec_assembling tag dt rd bs
      { s with asm := .assembling (.deliver tag dt rd) S [] } S [] rfl hus hsum
      (by omega) htag
    rw [hrec]
    simp [receivedMsgs]

/-- Witness for C2: scenario 4 of the spec — a consumer with tag
"amq.ctag-xyz" receives "hello" split across two BODY frames. -/
theorem C2_message_assembly_witness :
    usable ChPhase.ready = true ∧
    ("amq.ctag-xyz" ∈ ["amq.ctag-xyz"]) ∧
    (([[104, 101, 108], [108, 111]].map List.length).sum = 5) ∧
    receivedMsgs (exec ⟨.ready, [], ["amq.ctag-xyz"], .idle⟩
        (.frame (.basicDeliver "amq.ctag-xyz" 1 false) :: .frame (.header 5) ::
          bodyEvents [[104, 101, 108], [108, 111]])).2
      = [("amq.ctag-xyz", [104, 101, 108, 108, 111], 1, false)] :=
  ⟨rfl, by simp, by decide,
    C2_message_assembly ⟨.ready, [], ["amq.ctag-xyz"], .idle⟩ "amq.ctag-xyz" 1 false
      5 [[104, 101, 108], [108, 111]] rfl rfl (by simp) (by decide)⟩

theorem chunkLens_zero (c : Nat) : chunkLens c 0 = [] := by
  unfold chunkLens
  simp

theorem chunkLens_pos (c n : Nat) (hc : 0 < c) (hn : 0 < n) :
    chunkLens c n = min c n :: chunkLens c (n - c) := by
  conv_lhs => unfold chunkLens
  rw [if_neg (by omega)]

theorem chunkBody_map_length_fuel (c : Nat) (hc : 0 < c) :
    ∀ (fuel : Nat) (l : List Nat), l.length ≤ fuel →
      (chunkBody c l).map List.length = chunkLens c l.length := by
  intro fuel
  induction fuel with
  | zero =>
    intro l hl
    have : l = [] := List.length_eq_zero.mp (by omega)
    subst this
    simp [chunkBody_nil, chunkLens_zero]
  | succ n ih =>
    intro l hl
    match l with
    | [] => simp [chunkBody_nil, chunkLens_zero]
    | x :: xs =>
      rw [chunkBody_cons c x xs (by omega)]
      have hdrop : ((x :: xs).drop c).length ≤ n := by
        simp only [List.length_drop, List.length_cons] at *
        omega
      simp only [List.map_cons, ih _ hdrop]
      rw [chunkLens_pos c (x :: xs).length hc (by simp)]
      simp [List.length_take]

theorem chunkBody_map_length (c : Nat) (hc : 0 < c) (l : List Nat) :
    (chunkBody c l).map List.length = chunkLens c l.length :=
  chunkBody_map_length_fuel c hc l.length l le_rfl

/-- C3: a publish of a body of length `B > 0` with negotiated frame-max `F`
emits exactly one METHOD frame, one HEADER frame and `⌈B/(F−8)⌉` BODY frames
(ceiling division written `(B+(F−8)−1)/(F−8)`), each BODY payload at most
`F−8` bytes, whose concatenation is the original body; in particular a
200,000-byte body with frame-max 131072 yields BODY payloads of sizes 131064
and 68936. -/
theorem C3_publish_body_split (s : ChanState) (ex rk : String) (env : Envelope)
    (F : Nat) (hus : usable s.phase = true) (hF : 8 < F)
    (hB : 0 < env.body.length) :
    (publish s ex rk env F).2
        = .publishFrame ex rk :: .headerFrame env.body.length env.properties ::
          (chunkBody (F - 8) env.body).map .bodyFrame ∧
    (chunkBody (F - 8) env.body).length
        = (env.body.length + (F - 8) - 1) / (F - 8) ∧
    (∀ ch ∈ chunkBody (F - 8) env.body, ch.length ≤ F - 8) ∧
    (chunkBody (F - 8) env.body).flatten = env.body ∧
    (env.body.length = 200000 → F = 131072 →
      (chunkBody (F - 8) env.body).map List.length = [131064, 68936]) := by
  refine ⟨?_, ?_, ?_, ?_, ?_⟩
  · simp [publish, hus]
  · exact chunkBody_count (F - 8) (by omega) env.body
  · exact chunkBody_le (F - 8) env.body
  · exact chunkBody_join (F - 8) (by omega) env.body
  · intro hlen hFv
    subst hFv
    rw [chunkBody_map_length (131072 - 8) (by norm_num) env.body, hlen]
    rw [chunkLens_pos _ _ (by norm_num) (by norm_num)]
    norm_num
    rw [chunkLens_pos _ _ (by norm_num) (by norm_num)]
    norm_num
    exact chunkLens_zero _

/-- Witness for C3 at the spec's scenario 3: a 200,000-byte body with
frame-max 131072 splits into BODY payloads of 131064 and 68936 bytes. -/
theorem C3_publish_body_split_witness :
    usable ChPhase.ready = true ∧ 8 < 131072 ∧
    0 < (List.replicate 200000 0).length ∧
    (chunkBody (131072 - 8) (List.replicate 200000 0)).map List.length
      = [131064, 68936] := by
  refine ⟨rfl, by norm_num, ?_, ?_⟩
  · simp only [List.length_replicate]
    norm_num
  · have h := C3_publish_body_split ⟨.ready, [], [], .idle⟩ "e" "r"
      ⟨List.replicate 200000 0, .nil⟩ 131072 rfl (by norm_num)
      (by simp only [List.length_replicate]; norm_num)
    exact h.2.2.2.2 (by simp only [List.length_replicate]) rfl

/-- C6: `publish` is a synchronous operation returning a bool (no Deferred):
it returns true when the channel is Ready and also when it is Paused (flow
control only regulates inbound deliveries), and false when the channel is in
no usable state. -/
theorem C6_publish_bool (s : ChanState) (ex rk : String) (env : Envelope)
    (F : Nat) :
    (s.phase = .ready → (publish s ex rk env F).1 = true) ∧
    (s.phase = .paused → (publish s ex rk env F).1 = true) ∧
    (usable s.phase = false → (publish s ex rk env F).1 = false) := by
  refine ⟨?_, ?_, ?_⟩
  · intro h
    simp [publish, h, usable]
  · intro h
    simp [publish, h, usable]
  · intro h
    simp [publish, h]

/-- Witness for C6: publish accepted while Ready and while Paused, refused on
a Closed channel. -/
theorem C6_publish_bool_witness :
    (publish ⟨.ready, [], [], .idle⟩ "e" "r" ⟨[104], .nil⟩ 4096).1 = true ∧
    (publish ⟨.paused, [], [], .idle⟩ "e" "r" ⟨[104], .nil⟩ 4096).1 = true ∧
    (publish ⟨.closed, [], [], .idle⟩ "e" "r" ⟨[104], .nil⟩ 4096).1 = false :=
  ⟨(C6_publish_bool ⟨.ready, [], [], .idle⟩ "e" "r" ⟨[104], .nil⟩ 4096).1 rfl,
   (C6_publish_bool ⟨.paused, [], [], .idle⟩ "e" "r" ⟨[104], .nil⟩ 4096).2.1 rfl,
   (C6_publish_bool ⟨.closed, [], [], .idle⟩ "e" "r" ⟨[104], .nil⟩ 4096).2.2 rfl⟩

/-- C4: when the broker sends `channel.close(reply-code, reply-text, ...)`,
every pending Deferred (not just the head) is resolved with the channel error
carrying that reply-code and reply-text, in FIFO order; the engine emits
`channel.close-ok` after those resolutions; and only then is the channel
Closed with an empty pending queue. -/
theorem C4_broker_channel_close (s : ChanState) (code : Nat) (text : String)
    (h : ¬(s.phase = .closed ∨ s.phase = .failed)) :
    (step s (.frame (.channelCloseFrame code text))).2
        = s.pending.map (fun p => Output.resolved p.1 (.channelError code text))
          ++ [.closeOkFrame] ∧
    resolvedIds (step s (.frame (.channelCloseFrame code text))).2 = pendingIds s ∧
    (∀ i r, Output.resolved i r ∈ (step s (.frame (.channelCloseFrame code text))).2 →
      r = .channelError code text) ∧
    (step s (.frame (.channelCloseFrame code text))).1.phase = .closed ∧
    (step s (.frame (.channelCloseFrame code text))).1.pending = [] := by
  have hstep : step s (.frame (.channelCloseFrame code text))
      = ({ s with phase := .closed, pending := [], asm := .idle },
         s.pending.map (fun p => Output.resolved p.1 (.channelError code text))
           ++ [Output.closeOkFrame]) := by
    simp [step, h]
  refine ⟨by rw [hstep], ?_, ?_, by rw [hstep], by rw [hstep]⟩
  · rw [hstep]
    simp only [resolvedIds_append, resolvedIds_map_close, pendingIds]
    simp [resolvedIds]
  · intro i r hmem
    rw [hstep] at hmem
    simp only [List.mem_append, List.mem_map, List.mem_singleton] at hmem
    rcases hmem with ⟨p, _, hp⟩ | hp
    · cases hp
      rfl
    · cases hp

/-- Witness for C4: scenario 5 of the spec — broker closes with
`(406, "PRECONDITION_FAILED")` while two Deferreds are pending; both resolve
with that channel error, `channel.close-ok` is emitted last, and the channel
is Closed. -/
theorem C4_broker_channel_close_witness :
    (step ⟨.ready, [(1, .plain), (2, .plain)], [], .idle⟩
        (.frame (.channelCloseFrame 406 "PRECONDITION_FAILED"))).2
      = [.resolved 1 (.channelError 406 "PRECONDITION_FAILED"),
         .resolved 2 (.channelError 406 "PRECONDITION_FAILED"),
         .closeOkFrame] ∧
    (step ⟨.ready, [(1, .plain), (2, .plain)], [], .idle⟩
        (.frame (.channelCloseFrame 406 "PRECONDITION_FAILED"))).1.phase = .closed := by
  have h := C4_broker_channel_close ⟨.ready, [(1, .plain), (2, .plain)], [], .idle⟩
    406 "PRECONDITION_FAILED" (by simp)
  refine ⟨?_, h.2.2.2.1⟩
  rw [h.1]
  rfl

/-- C5: a `queue.declare-ok(name, message-count, consumer-count)` arriving for
the pending declare-queue Deferred at the head of the FIFO resolves exactly
that Deferred with the triple carried by the frame — in particular the name
is the server-assigned one from the declare-ok, which is how a declare with
an empty input name learns its queue name. -/
theorem C5_declare_queue_resolution (s : ChanState) (i : Nat)
    (rest : List (Nat × DKind)) (name : String) (mc cc : Nat)
    (hph : ¬(s.phase = .closed ∨ s.phase = .failed))
    (hpend : s.pending = (i, .queueDeclare) :: rest) :
    step s (.frame (.queueDeclareOk name mc cc))
      = ({ s with pending := rest }, [.resolved i (.queueOk name mc cc)]) := by
  simp [step, hph, hpend]

/-- Witness for C5: scenario 2 of the spec — declare with empty name; the
server answers `queue.declare-ok("amq.gen-abc", 0, 0)` and the pending
Deferred resolves with exactly that triple. -/
theorem C5_declare_queue_resolution_witness :
    step ⟨.ready, [(7, .queueDeclare)], [], .idle⟩
        (.frame (.queueDeclareOk "amq.gen-abc" 0 0))
      = (⟨.ready, [], [], .idle⟩, [.resolved 7 (.queueOk "amq.gen-abc" 0 0)]) :=
  C5_declare_queue_resolution ⟨.ready, [(7, .queueDeclare)], [], .idle⟩ 7 []
    "amq.gen-abc" 0 0 (by simp) rfl

theorem runTicks_dead (ts : List Nat) :
    ∀ s : HbState, s.alive = false → (runTicks s ts).2 = [] := by
  induction ts with
  | nil => intro s h; rfl
  | cons t rest ih =>
    intro s h
    have htick : heartbeat_tick s t = (s, []) := by
      simp [heartbeat_tick, h]
    simp only [runTicks, htick]
    simp [ih s h]

/-- C7: with a negotiated heartbeat interval `h > 0`, a tick finding no frame
sent within `h` seconds produces exactly one heartbeat frame; a tick finding
no frame received within `2×h` seconds fires HeartbeatTimeout exactly once —
the connection is then dead and no later tick ever fires it again. -/
theorem C7_heartbeat (s : HbState) (now : Nat)
    (halive : s.alive = true) (hpos : 0 < s.heartbeat) :
    (s.lastSent + s.heartbeat ≤ now →
      (heartbeat_tick s now).2.count HbEvent.heartbeatFrame = 1) ∧
    (¬ s.lastSent + s.heartbeat ≤ now →
      (heartbeat_tick s now).2.count HbEvent.heartbeatFrame = 0) ∧
    (s.lastRecv + 2 * s.heartbeat ≤ now →
      (heartbeat_tick s now).2.count HbEvent.heartbeatTimeout = 1 ∧
      ∀ ts, (runTicks (heartbeat_tick s now).1 ts).2.count HbEvent.heartbeatTimeout = 0) := by
  have hcond : ¬(s.alive = false ∨ s.heartbeat = 0) := by
    simp [halive]
    omega
  refine ⟨?_, ?_, ?_⟩
  · intro hsend
    by_cases hdead : s.lastRecv + 2 * s.heartbeat ≤ now <;>
      simp [heartbeat_tick, hcond, hsend, hdead]
  · intro hsend
    by_cases hdead : s.lastRecv + 2 * s.heartbeat ≤ now <;>
      simp [heartbeat_tick, hcond, hsend, hdead]
  · intro hdead
    constructor
    · by_cases hsend : s.lastSent + s.heartbeat ≤ now <;>
        simp [heartbeat_tick, hcond, hsend, hdead]
    · intro ts
      have hstate : (heartbeat_tick s now).1.alive = false := by
        simp [heartbeat_tick, hcond, hdead]
      rw [runTicks_dead ts _ hstate]
      rfl

/-- Witness for C7: heartbeat 60, both staleness conditions holding at
`now = 120` — exactly one heartbeat frame, exactly one timeout, and zero
timeouts over any later run of ticks (here `[180]`). -/
theorem C7_heartbeat_witness :
    (HbState.mk 60 0 0 true).alive = true ∧ 0 < (HbState.mk 60 0 0 true).heartbeat ∧
    (0 + 60 ≤ 120) ∧ (0 + 2 * 60 ≤ 120) ∧
    (heartbeat_tick ⟨60, 0, 0, true⟩ 120).2.count HbEvent.heartbeatFrame = 1 ∧
    (heartbeat_tick ⟨60, 0, 0, true⟩ 120).2.count HbEvent.heartbeatTimeout = 1 ∧
    (runTicks (heartbeat_tick ⟨60, 0, 0, true⟩ 120).1 [180]).2.count
        HbEvent.heartbeatTimeout = 0 := by
  have h := C7_heartbeat ⟨60, 0, 0, true⟩ 120 rfl (by norm_num)
  exact ⟨rfl, by norm_num, by norm_num, by norm_num,
    h.1 (by norm_num), (h.2.2 (by norm_num)).1, (h.2.2 (by norm_num)).2 [180]⟩

theorem applyOps_bounded (ops : List CbOp) :
    ∀ st : SlotName → List Nat, (∀ slot, (st slot).length ≤ 1) →
      ∀ slot, (applyOps st ops slot).length ≤ 1 := by
  induction ops with
  | nil => intro st h slot; exact h slot
  | cons op rest ih =>
    intro st h slot
    cases op with
    | register s' c =>
      apply ih
      intro sl
      by_cases hs : sl = s' <;> simp [applyOp, hs, h sl]

theorem applyOps_append_one (ops : List CbOp) :
    ∀ (st : SlotName → List Nat) (op : CbOp),
      applyOps st (ops ++ [op]) = applyOp (applyOps st ops) op := by
  induction ops with
  | nil => intro st op; rfl
  | cons o rest ih =>
    intro st op
    simp only [List.cons_append, applyOps]
    exact ih _ op

/-- C9: every callback slot — the channel's ready/error/returned slots, each
Deferred's success/error/finalize slots, each consumer's received/cancelled
slots — holds at most one callable after any sequence of registrations, and
registering on a slot that already holds a callback replaces it with exactly
the new one. -/
theorem C9_callback_slots :
    (∀ (ops : List CbOp) (slot : SlotName),
      (applyOps emptySlots ops slot).length ≤ 1) ∧
    (∀ (ops : List CbOp) (slot : SlotName) (cb : Nat),
      applyOps emptySlots (ops ++ [.register slot cb]) slot = [cb]) := by
  constructor
  · intro ops slot
    exact applyOps_bounded ops emptySlots (fun _ => by simp [emptySlots]) slot
  · intro ops slot cb
    rw [applyOps_append_one]
    simp [applyOp]

/-- C10: every reduced-arity overload of the public API equals the full-arity
overload applied with the documented defaults — omitted flags are 0, an
omitted arguments table is the empty Table, an omitted name or consumer tag
is the empty string, and publish with a message string or a raw byte buffer
equals publish with an Envelope wrapping only that body. -/
theorem C10_overload_defaults :
    (∀ (ch : ChannelImpl) (name : String) (type : ExchangeType) (flags : Int)
        (arguments : FieldTable),
      declareExchange3 ch name type arguments
          = declareExchange4 ch name type 0 arguments ∧
      declareExchange2 ch name type flags = declareExchange4 ch name type flags .nil ∧
      declareExchangeT3 ch type flags arguments
          = declareExchange4 ch "" type flags arguments ∧
      declareExchangeT2 ch type arguments = declareExchange4 ch "" type 0 arguments ∧
      declareExchangeT1 ch type flags = declareExchange4 ch "" type flags .nil) ∧
    (∀ (ch : ChannelImpl) (name : String) (flags : Int) (arguments : FieldTable),
      declareQueue2a ch name arguments = declareQueue3 ch name 0 arguments ∧
      declareQueue2b ch name flags = declareQueue3 ch name flags .nil ∧
      declareQueueF2 ch flags arguments = declareQueue3 ch "" flags arguments ∧
      declareQueueA1 ch arguments = declareQueue3 ch "" 0 arguments ∧
      declareQueueF1 ch flags = declareQueue3 ch "" flags .nil) ∧
    (∀ (ch : ChannelImpl) (queue tag : String) (flags : Int)
        (arguments : FieldTable),
      consume3a ch queue tag flags = consume4 ch queue tag flags .nil ∧
      consume3b ch queue tag arguments = consume4 ch queue tag 0 arguments ∧
      consumeF2 ch queue flags arguments = consume4 ch queue "" flags arguments ∧
      consumeF1 ch queue flags = consume4 ch queue "" flags .nil ∧
      consumeA1 ch queue arguments = consume4 ch queue "" 0 arguments) ∧
    (∀ (ch : ChannelImpl) (a b r : String) (flags : Int) (arguments : FieldTable),
      bindExchange4 ch a b r arguments = bindExchange5 ch a b r 0 arguments ∧
      bindExchange3 ch a b r flags = bindExchange5 ch a b r flags .nil ∧
      unbindExchange4 ch a b r arguments = unbindExchange5 ch a b r 0 arguments ∧
      unbindExchange3 ch a b r flags = unbindExchange5 ch a b r flags .nil ∧
      bindQueue4 ch a b r arguments = bindQueue5 ch a b r 0 arguments ∧
      bindQueue3 ch a b r flags = bindQueue5 ch a b r flags .nil ∧
      unbindQueue3 ch a b r = unbindQueue4 ch a b r .nil) ∧
    (∀ (ch : ChannelImpl) (ex rk : String) (message : List Nat),
      publishStr ch ex rk message
          = publishEnv ch ex rk { body := message, properties := .nil } ∧
      publishRaw ch ex rk message
          = publishEnv ch ex rk { body := message, properties := .nil }) :=
  ⟨fun _ _ _ _ _ => ⟨rfl, rfl, rfl, rfl, rfl⟩,
   fun _ _ _ _ => ⟨rfl, rfl, rfl, rfl, rfl⟩,
   fun _ _ _ _ _ => ⟨rfl, rfl, rfl, rfl, rfl⟩,
   fun _ _ _ _ _ _ => ⟨rfl, rfl, rfl, rfl, rfl, rfl, rfl⟩,
   fun _ _ _ _ => ⟨rfl, rfl⟩⟩
